import Mathlib

set_option autoImplicit false
set_option maxHeartbeats 1000000

/-!
Verification development for the image ingestion and normalization pipeline
of `app.py` (the campaign-submission upload portal).  The Python functions
`allowed_file`, `compress_image_inplace` and `save_image` are embedded
shallowly: paths are normalized component lists, the file system is an
association list from paths to file contents, and a decoded image is a
record of dimensions, color mode and transparency metadata.  Machine
floating point in the resize step (`max_long / float(max(w, h))` followed
by `int(...)`) is modelled as the exact rational ratio truncated to an
integer, which is the stated numeric contract of the design.
-/

namespace App

/-- Color modes of the Python imaging library that matter to `app.py`:
the code tests membership in `("RGBA", "LA")` and `("RGB", "RGBA")`. -/
inductive Mode where
  | one
  | L
  | LA
  | P
  | RGB
  | RGBA
  | CMYK
deriving DecidableEq

/-- Decoded in-memory image: pixel dimensions, color mode, and whether the
decoded metadata dictionary `img.info` contains a transparency key. -/
structure PilImage where
  width : Nat
  height : Nat
  mode : Mode
  transparencyInfo : Bool
deriving DecidableEq

/-- Model of `Image.resize`: new dimensions, same mode and metadata
(the imaging library copies `info` into the resized image). -/
def pilResize (img : PilImage) (w h : Nat) : PilImage :=
  { img with width := w, height := h }

/-- Model of `Image.convert`: new color mode, same dimensions. -/
def pilConvert (img : PilImage) (m : Mode) : PilImage :=
  { img with mode := m }

/-- Paths are normalized lists of components, relative to the process
working directory (the configured storage root is a relative name). -/
abbrev Path := List String

/-- Contents of a file on disk: either raw staged upload bytes (recording
what they decode to, `none` when undecodable), or an encoded image together
with the encoder parameters passed to `img.save`. -/
inductive FileData where
  | staged (decoded : Option PilImage)
  | png (img : PilImage) (optimize : Bool) (compressLevel : Nat)
  | jpg (img : PilImage) (quality : Nat) (optimize : Bool) (progressive : Bool)
deriving DecidableEq

/-- The file system: an association list from paths to file contents,
newest entry first. -/
abbrev FS := List (Path × FileData)

/-- Look up the file stored at a path. -/
def fsGet (fs : FS) (p : Path) : Option FileData :=
  (fs.find? (fun e => decide (e.1 = p))).map (fun e => e.2)

/-- Write (create or overwrite) a file. -/
def fsWrite (fs : FS) (p : Path) (f : FileData) : FS :=
  (p, f) :: fs

/-- Model of `os.remove`: drop the entry at the path. -/
def fsRemove (fs : FS) (p : Path) : FS :=
  fs.filter (fun e => !decide (e.1 = p))

/-- What `Image.open` decodes a stored file to: staged bytes decode to
whatever they encode (possibly nothing), encoded images decode to their
image. -/
def decodeFile : FileData → Option PilImage
  | .staged d => d
  | .png i _ _ => some i
  | .jpg i _ _ _ => some i

/-- Model of `Image.open(path)`: `none` when the open or decode raises. -/
def imageOpen (fs : FS) (p : Path) : Option PilImage :=
  (fsGet fs p).bind decodeFile

/-- Model of the Python method `str.strip()` with no argument: remove
leading and trailing whitespace. -/
def strip (s : String) : String :=
  ⟨((s.data.dropWhile Char.isWhitespace).reverse.dropWhile Char.isWhitespace).reverse⟩

/-- Core of `os.path.splitext` on a basename: split off the extension at
the last dot, except that leading dots alone never start an extension
(`splitext(".tmp") = (".tmp", "")`). -/
def splitextCore (name : List Char) : List Char × List Char :=
  let extRev := name.reverse.takeWhile (fun c => c != '.')
  if extRev.length = name.length then (name, [])
  else if (name.take (name.length - extRev.length - 1)).all (fun c => c == '.') then
    (name, [])
  else (name.take (name.length - extRev.length - 1), '.' :: extRev.reverse)

/-- The root part of `os.path.splitext`, as used by `app.py`. -/
def splitextRoot (s : String) : String :=
  ⟨(splitextCore s.data).1⟩

/-- The extension part of `os.path.splitext`, dot included. -/
def splitextExt (s : String) : String :=
  ⟨(splitextCore s.data).2⟩

/-- Model of `filename.rsplit(".", 1)[1]`: the substring after the last
dot (the whole string when there is no dot, a case `allowed_file` guards). -/
def extAfterLastDot (s : String) : String :=
  ⟨(s.data.reverse.takeWhile (fun c => c != '.')).reverse⟩

/-- The fixed extension allow-set of `app.py`. -/
def ALLOWED_EXTENSIONS : List String := ["png", "jpg", "jpeg", "gif", "webp"]

/-- Model of `allowed_file(filename, mimetype)`:
`ext_ok = ("." in filename) and (filename.rsplit(".", 1)[1].lower() in ALLOWED_EXTENSIONS)`,
`type_ok = mimetype.startswith("image/") if mimetype else False`,
result `ext_ok or type_ok`. -/
def allowed_file (filename : String) (mimetype : String) : Bool :=
  (filename.data.contains '.' && ALLOWED_EXTENSIONS.contains (extAfterLastDot filename).toLower)
  || (if mimetype = "" then false else mimetype.startsWith "image/")

/-- Characters kept by the ascii-strip regular expression of
`werkzeug.utils.secure_filename`: letters, digits, underscore, dot, dash. -/
def secureChar (c : Char) : Bool :=
  (decide ('A' ≤ c) && decide (c ≤ 'Z')) || (decide ('a' ≤ c) && decide (c ≤ 'z'))
  || (decide ('0' ≤ c) && decide (c ≤ '9')) || c == '_' || c == '.' || c == '-'

/-- Accumulator worker for `splitWS`: `acc` holds the current word,
reversed. -/
def splitWSAux : List Char → List Char → List (List Char)
  | [], acc => if acc = [] then [] else [acc.reverse]
  | c :: cs, acc =>
    if c.isWhitespace then
      if acc = [] then splitWSAux cs []
      else acc.reverse :: splitWSAux cs []
    else splitWSAux cs (c :: acc)

/-- Model of Python `str.split()` with no argument: split on runs of
whitespace, dropping empty pieces. -/
def splitWS (l : List Char) : List (List Char) :=
  splitWSAux l []

/-- Model of Python `str.strip(chars)`: remove the given characters from
both ends. -/
def stripEdgeChars (bad : List Char) (l : List Char) : List Char :=
  ((l.dropWhile (fun c => bad.contains c)).reverse.dropWhile (fun c => bad.contains c)).reverse

/-- Model of `werkzeug.utils.secure_filename` on a posix host: keep ascii,
turn path separators into spaces, join the whitespace-split pieces with
underscores, drop characters outside the allow-set, and strip leading and
trailing dots and underscores. -/
def secure_filename (s : String) : String :=
  let ascii := s.data.filter (fun c => decide (c.toNat < 128))
  let seps := ascii.map (fun c => if c == '/' then ' ' else c)
  let joined := List.intercalate ['_'] (splitWS seps)
  let kept := joined.filter secureChar
  ⟨stripEdgeChars ['.', '_'] kept⟩

/-- Wall-clock instant, as produced by `datetime.utcnow()`. -/
structure DateTime where
  year : Nat
  month : Nat
  day : Nat
  hour : Nat
  minute : Nat
  second : Nat

/-- Decimal digit character of `n % 10`. -/
def digitChar (n : Nat) : Char :=
  match n % 10 with
  | 0 => '0' | 1 => '1' | 2 => '2' | 3 => '3' | 4 => '4'
  | 5 => '5' | 6 => '6' | 7 => '7' | 8 => '8' | _ => '9'

/-- Two-digit zero-padded decimal, as `strftime` renders in-range fields. -/
def pad2 (n : Nat) : String :=
  ⟨[digitChar (n / 10), digitChar n]⟩

/-- Four-digit zero-padded decimal, as `strftime` renders the year. -/
def pad4 (n : Nat) : String :=
  ⟨[digitChar (n / 1000), digitChar (n / 100), digitChar (n / 10), digitChar n]⟩

/-- Model of `datetime.strftime("%Y%m%d-%H%M%S")`. -/
def stamp (d : DateTime) : String :=
  pad4 d.year ++ pad2 d.month ++ pad2 d.day ++ "-" ++ pad2 d.hour ++ pad2 d.minute ++ pad2 d.second

/-- Model of `os.path.basename` on a component list. -/
def basename (p : Path) : String :=
  p.getLast?.getD ""

/-- Model of `os.path.abspath` for relative inputs: join onto the process
working directory. -/
def abspath (cwd p : Path) : Path :=
  cwd ++ p

/-- Drop the common leading components of two paths, as
`os.path.relpath` does via `commonprefix`. -/
def dropCommon : Path → Path → Path × Path
  | a :: as, b :: bs => if a = b then dropCommon as bs else (a :: as, b :: bs)
  | as, bs => (as, bs)

/-- Model of `os.path.relpath(path, start)` on normalized absolute
component lists: one `..` per remaining component of `start`, then the
remaining components of `path`; `.` when nothing remains. -/
def relpath (p start : Path) : Path :=
  let r := dropCommon p start
  let rel := List.replicate r.2.length ".." ++ r.1
  if rel = [] then ["."] else rel

/-- Render a component list as a separator-joined string. -/
def joinPosix : List String → String
  | [] => ""
  | [x] => x
  | x :: xs => x ++ "/" ++ joinPosix xs

/-- Model of `rel.replace("\\", "/")`: map every backslash character to a
forward slash. -/
def replaceBS (s : String) : String :=
  ⟨s.data.map (fun c => if c == '\\' then '/' else c)⟩

/-- An inbound multipart file: the claimed filename and what its bytes
decode to (`none` when they are not a decodable image). -/
structure FileStorage where
  filename : String
  decoded : Option PilImage

/-- Default of the `MAX_IMG_LONG` configuration. -/
def MAX_IMG_LONG : Nat := 1600

/-- Default of the `JPEG_QUALITY` configuration. -/
def JPEG_QUALITY : Nat := 80

/-- Default of the `UPLOAD_FOLDER` configuration. -/
def UPLOAD_FOLDER : String := "uploads"

/-- Embedding of `compress_image_inplace(abs_path, max_long, jpg_quality)`:
open the image at `abs_path` (returning the path unchanged when decoding
fails), resize so the long edge is at most `max_long` (ratio truncated to
integers), detect alpha from the mode or the transparency metadata, then
re-encode as PNG (alpha) or JPEG (no alpha) next to the staged file and
best-effort remove the staged file when the target name differs. -/
def compress_image_inplace (fs : FS) (abs_path : Path) (max_long jpg_quality : Nat) :
    FS × Path :=
  match imageOpen fs abs_path with
  | none => (fs, abs_path)
  | some img0 =>
    let w := img0.width
    let h := img0.height
    let img1 :=
      if max w h > max_long then
        pilResize img0 (w * max_long / max w h) (h * max_long / max w h)
      else img0
    let has_alpha := (decide (img1.mode = Mode.RGBA) || decide (img1.mode = Mode.LA))
      || img1.transparencyInfo
    let folder := abs_path.dropLast
    let name_no_ext := splitextRoot (basename abs_path)
    if has_alpha then
      let img2 :=
        if decide (img1.mode = Mode.RGB) || decide (img1.mode = Mode.RGBA) then img1
        else pilConvert img1 Mode.RGBA
      let target_path := folder ++ [name_no_ext ++ ".png"]
      let fs1 := fsWrite fs target_path (FileData.png img2 true 9)
      if target_path ≠ abs_path then (fsRemove fs1 abs_path, target_path)
      else (fs1, target_path)
    else
      let img2 :=
        if decide (img1.mode = Mode.RGB) then img1
        else pilConvert img1 Mode.RGB
      let target_path := folder ++ [name_no_ext ++ ".jpg"]
      let fs1 := fsWrite fs target_path (FileData.jpg img2 jpg_quality true true)
      if target_path ≠ abs_path then (fsRemove fs1 abs_path, target_path)
      else (fs1, target_path)

/-- Embedding of `save_image(file_storage, subdir)`.  The ambient
configuration and the effectful inputs of one call (working directory,
upload root, size and quality limits, the `utcnow` timestamp and the
truncated `uuid4` token) are explicit parameters.  Returns the updated
file system and the slash-joined storage-root-relative path, or `none`
when no file or an all-whitespace filename was supplied. -/
def save_image (fs : FS) (cwd : Path) (uploads_root : String) (max_long jpg_quality : Nat)
    (now : DateTime) (token : String) (file_storage : Option FileStorage) (subdir : String) :
    FS × Option String :=
  match file_storage with
  | none => (fs, none)
  | some f =>
    if strip f.filename = "" then (fs, none)
    else
      let folder : Path := [uploads_root, subdir]
      let orig := secure_filename (if f.filename = "" then "image" else f.filename)
      let base := if splitextRoot orig = "" then "image" else splitextRoot orig
      let unique := stamp now ++ "-" ++ token
      let temp_path := folder ++ [base ++ "-" ++ unique ++ ".tmp"]
      let fs1 := fsWrite fs temp_path (FileData.staged f.decoded)
      let fs2 := (compress_image_inplace fs1 temp_path max_long jpg_quality).1
      let final_abs := (compress_image_inplace fs1 temp_path max_long jpg_quality).2
      let uploads_root_abs := abspath cwd [uploads_root]
      let final_abs_norm := abspath cwd final_abs
      let rel := relpath final_abs_norm uploads_root_abs
      (fs2, some (replaceBS (joinPosix rel)))

/-- Alpha detection exactly as `compress_image_inplace` computes it. -/
def hasAlphaB (img : PilImage) : Bool :=
  (decide (img.mode = Mode.RGBA) || decide (img.mode = Mode.LA)) || img.transparencyInfo

/-- Whether a color mode carries a literal alpha channel. -/
def modeHasAlphaChannel (m : Mode) : Bool :=
  decide (m = Mode.RGBA) || decide (m = Mode.LA)

/-- The image after the resize step of `compress_image_inplace`: untouched
when the long edge is within `L`, otherwise both dimensions scaled by the
ratio `L / max(w, h)` and truncated. -/
def resizedImage (img : PilImage) (L : Nat) : PilImage :=
  if max img.width img.height > L then
    pilResize img (img.width * L / max img.width img.height)
      (img.height * L / max img.width img.height)
  else img

/-- The image actually encoded on the PNG branch: converted to RGBA
unless the mode is already RGB or RGBA. -/
def pngSavedImage (img : PilImage) (L : Nat) : PilImage :=
  if decide ((resizedImage img L).mode = Mode.RGB) || decide ((resizedImage img L).mode = Mode.RGBA) then
    resizedImage img L
  else pilConvert (resizedImage img L) Mode.RGBA

/-- The image actually encoded on the JPEG branch: converted to RGB
unless already RGB. -/
def jpgSavedImage (img : PilImage) (L : Nat) : PilImage :=
  if decide ((resizedImage img L).mode = Mode.RGB) then resizedImage img L
  else pilConvert (resizedImage img L) Mode.RGB

/-- The sanitized base name `save_image` derives from the claimed
filename: `os.path.splitext(secure_filename(filename or "image"))[0] or
"image"`. -/
def savedBase (filename : String) : String :=
  if splitextRoot (secure_filename (if filename = "" then "image" else filename)) = "" then "image"
  else splitextRoot (secure_filename (if filename = "" then "image" else filename))

/-- The saved stem of one `save_image` call: sanitized base name, dash,
timestamp, dash, token.  The final on-disk name is this stem plus
`.tmp`, `.png` or `.jpg`. -/
def savedStem (filename : String) (now : DateTime) (token : String) : String :=
  savedBase filename ++ "-" ++ (stamp now ++ "-" ++ token)

/-- Data of a string append is the append of the data. -/
theorem data_append (a b : String) : (a ++ b).data = a.data ++ b.data := rfl

/-- Strings with equal character data are equal. -/
theorem string_ext {a b : String} (h : a.data = b.data) : a = b :=
  congrArg String.mk h

/-- Looking up a freshly written path returns the written file. -/
theorem fsGet_fsWrite_self (fs : FS) (p : Path) (f : FileData) :
    fsGet (fsWrite fs p f) p = some f := by
  simp [fsGet, fsWrite, List.find?]

/-- Removing the old staged path after writing a different target leaves
the target readable. -/
theorem fsGet_fsRemove_fsWrite (fs : FS) {t a : Path} (f : FileData) (h : t ≠ a) :
    fsGet (fsRemove (fsWrite fs t f) a) t = some f := by
  simp [fsRemove, fsWrite, fsGet, List.filter_cons, List.find?, h]

/-- Opening a freshly staged file decodes to the staged content. -/
theorem imageOpen_fsWrite_staged (fs : FS) (p : Path) (d : Option PilImage) :
    imageOpen (fsWrite fs p (FileData.staged d)) p = d := by
  simp [imageOpen, fsGet_fsWrite_self, decodeFile]

/-- When decoding fails, `compress_image_inplace` is the identity on the
file system and returns the input path. -/
theorem compress_image_inplace_of_undecodable (fs : FS) (p : Path) (L q : Nat)
    (h : imageOpen fs p = none) :
    compress_image_inplace fs p L q = (fs, p) := by
  simp [compress_image_inplace, h]

/-- Mapping a function that fixes every member of a list is the identity. -/
theorem list_map_id_of_mem {α : Type} (f : α → α) (l : List α)
    (h : ∀ x ∈ l, f x = x) : l.map f = l := by
  induction l with
  | nil => rfl
  | cons a l ih =>
    simp only [List.map_cons, h a (List.mem_cons_self a l)]
    rw [ih fun x hx => h x (List.mem_cons_of_mem a hx)]

/-- Backslash replacement is the identity on backslash-free strings. -/
theorem replaceBS_eq_self (s : String) (h : '\\' ∉ s.data) : replaceBS s = s := by
  apply string_ext
  show s.data.map _ = s.data
  apply list_map_id_of_mem
  intro c hc
  have : ¬ c = '\\' := fun he => h (he ▸ hc)
  simp [this]

/-- Members of `dropWhile` are members of the original list. -/
theorem mem_of_mem_dropWhile {α : Type} {p : α → Bool} {l : List α} {x : α}
    (h : x ∈ l.dropWhile p) : x ∈ l :=
  ((List.dropWhile_suffix p).sublist).subset h

/-- Members of the output of `stripEdgeChars` come from the input. -/
theorem mem_of_mem_stripEdgeChars {bad : List Char} {l : List Char} {c : Char}
    (h : c ∈ stripEdgeChars bad l) : c ∈ l := by
  unfold stripEdgeChars at h
  rw [List.mem_reverse] at h
  have h1 := mem_of_mem_dropWhile h
  rw [List.mem_reverse] at h1
  exact mem_of_mem_dropWhile h1

/-- Every character of a sanitized filename is in the allow-set. -/
theorem secure_filename_chars (s : String) :
    ∀ c ∈ (secure_filename s).data, secureChar c = true := by
  intro c hc
  have h1 : c ∈ (List.intercalate ['_']
      (splitWS ((s.data.filter (fun c => decide (c.toNat < 128))).map
        (fun c => if c == '/' then ' ' else c)))).filter secureChar :=
    mem_of_mem_stripEdgeChars hc
  exact (List.mem_filter.mp h1).2

/-- Sanitized filenames never contain a backslash. -/
theorem secure_filename_no_bs (s : String) : '\\' ∉ (secure_filename s).data := by
  intro h
  have := secure_filename_chars s '\\' h
  simp [secureChar] at this

/-- Sanitized filenames never contain a slash. -/
theorem secure_filename_no_slash (s : String) : '/' ∉ (secure_filename s).data := by
  intro h
  have := secure_filename_chars s '/' h
  simp [secureChar] at this

/-- Digit characters are never a backslash. -/
theorem digitChar_ne_bs (n : Nat) : digitChar n ≠ '\\' := by
  unfold digitChar
  split <;> decide

/-- The character data of a rendered timestamp, spelled out. -/
theorem stamp_data (d : DateTime) : (stamp d).data =
    [digitChar (d.year / 1000), digitChar (d.year / 100), digitChar (d.year / 10),
     digitChar d.year, digitChar (d.month / 10), digitChar d.month,
     digitChar (d.day / 10), digitChar d.day, '-',
     digitChar (d.hour / 10), digitChar d.hour, digitChar (d.minute / 10),
     digitChar d.minute, digitChar (d.second / 10), digitChar d.second] := rfl

/-- Rendered timestamps are always fifteen characters long. -/
theorem stamp_length (d : DateTime) : (stamp d).data.length = 15 := by
  rw [stamp_data]
  rfl

/-- Timestamps never contain a backslash. -/
theorem stamp_no_bs (d : DateTime) : '\\' ∉ (stamp d).data := by
  intro h
  rw [stamp_data] at h
  simp only [List.mem_cons, List.not_mem_nil, or_false] at h
  rcases h with h|h|h|h|h|h|h|h|h|h|h|h|h|h|h <;>
    first
      | exact digitChar_ne_bs _ h.symm
      | exact absurd h (by decide)

/-- The root part of `splitext` only uses characters of the input. -/
theorem mem_of_mem_splitextRoot {s : String} {c : Char}
    (h : c ∈ (splitextRoot s).data) : c ∈ s.data := by
  simp only [splitextRoot, splitextCore] at h
  split at h
  · exact h
  · split at h
    · exact h
    · exact List.take_subset _ _ h

theorem resizedImage_mode (img : PilImage) (L : Nat) :
    (resizedImage img L).mode = img.mode := by
  unfold resizedImage
  split <;> rfl

theorem resizedImage_transp (img : PilImage) (L : Nat) :
    (resizedImage img L).transparencyInfo = img.transparencyInfo := by
  unfold resizedImage
  split <;> rfl

theorem pngSavedImage_width (img : PilImage) (L : Nat) :
    (pngSavedImage img L).width = (resizedImage img L).width := by
  unfold pngSavedImage
  split <;> rfl

theorem pngSavedImage_height (img : PilImage) (L : Nat) :
    (pngSavedImage img L).height = (resizedImage img L).height := by
  unfold pngSavedImage
  split <;> rfl

theorem jpgSavedImage_width (img : PilImage) (L : Nat) :
    (jpgSavedImage img L).width = (resizedImage img L).width := by
  unfold jpgSavedImage
  split <;> rfl

theorem jpgSavedImage_height (img : PilImage) (L : Nat) :
    (jpgSavedImage img L).height = (resizedImage img L).height := by
  unfold jpgSavedImage
  split <;> rfl

theorem jpgSavedImage_mode (img : PilImage) (L : Nat) :
    (jpgSavedImage img L).mode = Mode.RGB := by
  unfold jpgSavedImage
  split
  · next h => exact of_decide_eq_true h
  · rfl

theorem pngSavedImage_alpha (img : PilImage) (L : Nat)
    (h : img.mode = Mode.RGBA ∨ img.mode = Mode.LA ∨ img.mode = Mode.P) :
    modeHasAlphaChannel (pngSavedImage img L).mode = true := by
  unfold pngSavedImage
  split
  · next hc =>
    rw [resizedImage_mode] at hc
    show modeHasAlphaChannel (resizedImage img L).mode = true
    rw [resizedImage_mode]
    rcases h with h | h | h <;> rw [h] at hc ⊢ <;> first | decide | simp at hc
  · next =>
    simp [pilConvert, modeHasAlphaChannel]

theorem pngSavedImage_mode_rgb (img : PilImage) (L : Nat) (h : img.mode = Mode.RGB) :
    (pngSavedImage img L).mode = Mode.RGB := by
  unfold pngSavedImage
  rw [if_pos]
  · rw [resizedImage_mode, h]
  · rw [resizedImage_mode, h]
    decide

theorem compress_run_jpg (fs : FS) (dir : Path) (nm : String) (L q : Nat) (img : PilImage)
    (hopen : imageOpen fs (dir ++ [nm]) = some img) (hA : hasAlphaB img = false) :
    ∃ fsN,
      compress_image_inplace fs (dir ++ [nm]) L q = (fsN, dir ++ [splitextRoot nm ++ ".jpg"]) ∧
      fsGet fsN (dir ++ [splitextRoot nm ++ ".jpg"]) =
        some (FileData.jpg (jpgSavedImage img L) q true true) := by
  have hA' : ((decide ((resizedImage img L).mode = Mode.RGBA) ||
      decide ((resizedImage img L).mode = Mode.LA)) ||
      (resizedImage img L).transparencyInfo) = false := by
    rw [resizedImage_mode, resizedImage_transp]
    exact hA
  simp only [compress_image_inplace, hopen, List.dropLast_concat, basename,
    List.getLast?_concat, Option.getD_some]
  rw [show (if max img.width img.height > L then
      pilResize img (img.width * L / max img.width img.height)
        (img.height * L / max img.width img.height)
    else img) = resizedImage img L from rfl]
  rw [if_neg (by rw [hA']; exact Bool.false_ne_true)]
  split
  · next hne =>
    refine ⟨_, rfl, ?_⟩
    exact fsGet_fsRemove_fsWrite fs _ hne
  · next heq =>
    refine ⟨_, rfl, ?_⟩
    exact fsGet_fsWrite_self fs _ _

theorem lt_mul_div_succ (a b : Nat) (hb : 0 < b) : a < b * (a / b + 1) := by
  have h1 := Nat.div_add_mod a b
  have h2 := Nat.mod_lt a hb
  have h3 : b * (a / b + 1) = b * (a / b) + b := by ring
  omega

theorem mul_div_le_mul (a b : Nat) : b * (a / b) ≤ a := by
  have h1 := Nat.div_add_mod a b
  omega

theorem resized_dims_le (img : PilImage) (L : Nat) (h : max img.width img.height ≤ L) :
    (resizedImage img L).width = img.width ∧ (resizedImage img L).height = img.height := by
  unfold resizedImage
  rw [if_neg (by omega)]
  exact ⟨rfl, rfl⟩

theorem resized_dims_gt (img : PilImage) (L : Nat) (h : L < max img.width img.height) :
    (resizedImage img L).width = img.width * L / max img.width img.height ∧
    (resizedImage img L).height = img.height * L / max img.width img.height ∧
    max (resizedImage img L).width (resizedImage img L).height = L := by
  unfold resizedImage
  rw [if_pos (by omega)]
  refine ⟨rfl, rfl, ?_⟩
  show max (img.width * L / max img.width img.height)
    (img.height * L / max img.width img.height) = L
  rcases Nat.le_total img.height img.width with hw | hw
  · rw [Nat.max_eq_left hw] at h ⊢
    have h0 : 0 < img.width := by omega
    rw [Nat.mul_div_cancel_left L h0]
    have : img.height * L / img.width ≤ L := by
      calc img.height * L / img.width ≤ img.width * L / img.width :=
        Nat.div_le_div_right (Nat.mul_le_mul_right L hw)
      _ = L := Nat.mul_div_cancel_left L h0
    exact Nat.max_eq_left this
  · rw [Nat.max_eq_right hw] at h ⊢
    have h0 : 0 < img.height := by omega
    rw [Nat.mul_div_cancel_left L h0]
    have : img.width * L / img.height ≤ L := by
      calc img.width * L / img.height ≤ img.height * L / img.height :=
        Nat.div_le_div_right (Nat.mul_le_mul_right L hw)
      _ = L := Nat.mul_div_cancel_left L h0
    exact Nat.max_eq_right this


theorem compress_run_alpha (fs : FS) (dir : Path) (nm : String) (L q : Nat) (img : PilImage)
    (hopen : imageOpen fs (dir ++ [nm]) = some img) (hA : hasAlphaB img = true) :
    ∃ fsN,
      compress_image_inplace fs (dir ++ [nm]) L q = (fsN, dir ++ [splitextRoot nm ++ ".png"]) ∧
      fsGet fsN (dir ++ [splitextRoot nm ++ ".png"]) =
        some (FileData.png (pngSavedImage img L) true 9) := by
  have hA2 : ((decide ((resizedImage img L).mode = Mode.RGBA) ||
      decide ((resizedImage img L).mode = Mode.LA)) ||
      (resizedImage img L).transparencyInfo) = true := by
    rw [resizedImage_mode, resizedImage_transp]
    exact hA
  simp only [compress_image_inplace, hopen, List.dropLast_concat, basename,
    List.getLast?_concat, Option.getD_some]
  rw [show (if max img.width img.height > L then
      pilResize img (img.width * L / max img.width img.height)
        (img.height * L / max img.width img.height)
    else img) = resizedImage img L from rfl]
  rw [if_pos hA2]
  split
  · next hne =>
    refine ⟨_, rfl, ?_⟩
    exact fsGet_fsRemove_fsWrite fs _ hne
  · next heq =>
    refine ⟨_, rfl, ?_⟩
    exact fsGet_fsWrite_self fs _ _

theorem resized_dims_full (img : PilImage) (L : Nat) :
    (max img.width img.height ≤ L →
      (resizedImage img L).width = img.width ∧ (resizedImage img L).height = img.height) ∧
    (L < max img.width img.height →
      (resizedImage img L).width = img.width * L / max img.width img.height ∧
      (resizedImage img L).height = img.height * L / max img.width img.height ∧
      max (resizedImage img L).width (resizedImage img L).height = L ∧
      max img.width img.height * (resizedImage img L).width ≤ img.width * L ∧
      img.width * L < max img.width img.height * ((resizedImage img L).width + 1) ∧
      max img.width img.height * (resizedImage img L).height ≤ img.height * L ∧
      img.height * L < max img.width img.height * ((resizedImage img L).height + 1)) := by
  constructor
  · exact resized_dims_le img L
  · intro h
    obtain ⟨hw, hh, hmax⟩ := resized_dims_gt img L h
    have h0 : 0 < max img.width img.height := by omega
    refine ⟨hw, hh, hmax, ?_, ?_, ?_, ?_⟩
    · rw [hw]
      exact mul_div_le_mul _ _
    · rw [hw]
      exact lt_mul_div_succ _ _ h0
    · rw [hh]
      exact mul_div_le_mul _ _
    · rw [hh]
      exact lt_mul_div_succ _ _ h0


/-- C1: for every decodable staged input, the encode step chooses the
output format from alpha detection.  When the decoded mode is RGBA or LA
or the metadata carries a transparency key, the target name gets the
`.png` extension and the stored PNG (for the RGBA, LA and palette shapes)
has an alpha-channel mode; otherwise the target name gets the `.jpg`
extension and the stored JPEG is RGB (no alpha channel), encoded at the
configured quality with optimization and progressive scan enabled. -/
theorem c1_encode_format_from_alpha (fs : FS) (dir : Path) (nm : String) (L q : Nat)
    (img : PilImage) (hopen : imageOpen fs (dir ++ [nm]) = some img) :
    (hasAlphaB img = true →
      (compress_image_inplace fs (dir ++ [nm]) L q).2 = dir ++ [splitextRoot nm ++ ".png"] ∧
      ∃ i, fsGet (compress_image_inplace fs (dir ++ [nm]) L q).1
          (compress_image_inplace fs (dir ++ [nm]) L q).2 = some (FileData.png i true 9) ∧
        ((img.mode = Mode.RGBA ∨ img.mode = Mode.LA ∨ img.mode = Mode.P) →
          modeHasAlphaChannel i.mode = true)) ∧
    (hasAlphaB img = false →
      (compress_image_inplace fs (dir ++ [nm]) L q).2 = dir ++ [splitextRoot nm ++ ".jpg"] ∧
      ∃ i, fsGet (compress_image_inplace fs (dir ++ [nm]) L q).1
          (compress_image_inplace fs (dir ++ [nm]) L q).2 = some (FileData.jpg i q true true) ∧
        modeHasAlphaChannel i.mode = false) := by
  constructor
  · intro hA
    obtain ⟨fsN, hrun, hget⟩ := compress_run_alpha fs dir nm L q img hopen hA
    rw [hrun]
    exact ⟨rfl, pngSavedImage img L, hget, fun h => pngSavedImage_alpha img L h⟩
  · intro hA
    obtain ⟨fsN, hrun, hget⟩ := compress_run_jpg fs dir nm L q img hopen hA
    rw [hrun]
    refine ⟨rfl, jpgSavedImage img L, hget, ?_⟩
    rw [jpgSavedImage_mode]
    decide

/-- Witness for C1 at a concrete RGBA input: the produced target carries
the `.png` extension. -/
theorem c1_encode_format_from_alpha_witness :
    (compress_image_inplace
      [(["uploads", "prereg", "a-1.tmp"], FileData.staged (some ⟨800, 600, Mode.RGBA, false⟩))]
      (["uploads", "prereg"] ++ ["a-1.tmp"]) 1600 80).2 =
      ["uploads", "prereg"] ++ [splitextRoot "a-1.tmp" ++ ".png"] := by
  have h := c1_encode_format_from_alpha
    [(["uploads", "prereg", "a-1.tmp"], FileData.staged (some ⟨800, 600, Mode.RGBA, false⟩))]
    ["uploads", "prereg"] "a-1.tmp" 1600 80 ⟨800, 600, Mode.RGBA, false⟩ (by decide)
  exact (h.1 (by decide)).1

/-- C2: the output of the pipeline decodes to an image whose dimensions
are the input dimensions when the long edge is within the limit, and
otherwise are both dimensions scaled by the ratio `L / max(w, h)` and
truncated, so the output long edge equals `L`, each output dimension is
the truncation of the exactly scaled value, and in particular a 3000 by
2000 opaque input with limit 1920 yields a `.jpg` output of 1920 by 1280. -/
theorem c2_resize_dimensions (fs : FS) (dir : Path) (nm : String) (L q : Nat)
    (img : PilImage) (hopen : imageOpen fs (dir ++ [nm]) = some img) :
    (∃ i, imageOpen (compress_image_inplace fs (dir ++ [nm]) L q).1
        (compress_image_inplace fs (dir ++ [nm]) L q).2 = some i ∧
      (max img.width img.height ≤ L → i.width = img.width ∧ i.height = img.height) ∧
      (L < max img.width img.height →
        i.width = img.width * L / max img.width img.height ∧
        i.height = img.height * L / max img.width img.height ∧
        max i.width i.height = L ∧
        max img.width img.height * i.width ≤ img.width * L ∧
        img.width * L < max img.width img.height * (i.width + 1) ∧
        max img.width img.height * i.height ≤ img.height * L ∧
        img.height * L < max img.width img.height * (i.height + 1))) ∧
    ((compress_image_inplace
        [(["uploads", "tweets", "shot-1.tmp"], FileData.staged (some ⟨3000, 2000, Mode.RGB, false⟩))]
        ["uploads", "tweets", "shot-1.tmp"] 1920 80).2 = ["uploads", "tweets", "shot-1.jpg"] ∧
      imageOpen (compress_image_inplace
        [(["uploads", "tweets", "shot-1.tmp"], FileData.staged (some ⟨3000, 2000, Mode.RGB, false⟩))]
        ["uploads", "tweets", "shot-1.tmp"] 1920 80).1
        (compress_image_inplace
        [(["uploads", "tweets", "shot-1.tmp"], FileData.staged (some ⟨3000, 2000, Mode.RGB, false⟩))]
        ["uploads", "tweets", "shot-1.tmp"] 1920 80).2 = some ⟨1920, 1280, Mode.RGB, false⟩) := by
  constructor
  · cases hA : hasAlphaB img with
    | true =>
      obtain ⟨fsN, hrun, hget⟩ := compress_run_alpha fs dir nm L q img hopen hA
      refine ⟨pngSavedImage img L, ?_, ?_⟩
      · rw [hrun]
        simp [imageOpen, hget, decodeFile]
      · simp only [pngSavedImage_width, pngSavedImage_height]
        exact resized_dims_full img L
    | false =>
      obtain ⟨fsN, hrun, hget⟩ := compress_run_jpg fs dir nm L q img hopen hA
      refine ⟨jpgSavedImage img L, ?_, ?_⟩
      · rw [hrun]
        simp [imageOpen, hget, decodeFile]
      · simp only [jpgSavedImage_width, jpgSavedImage_height]
        exact resized_dims_full img L
  · constructor
    · decide
    · decide

/-- Witness for C2 at a concrete oversized input: there is a decoded
output image, and on this input its dimensions are 1920 by 1280. -/
theorem c2_resize_dimensions_witness :
    ∃ i, imageOpen (compress_image_inplace
        [(["uploads", "tweets", "shot-1.tmp"], FileData.staged (some ⟨3000, 2000, Mode.RGB, false⟩))]
        (["uploads", "tweets"] ++ ["shot-1.tmp"]) 1920 80).1
      (compress_image_inplace
        [(["uploads", "tweets", "shot-1.tmp"], FileData.staged (some ⟨3000, 2000, Mode.RGB, false⟩))]
        (["uploads", "tweets"] ++ ["shot-1.tmp"]) 1920 80).2 = some i ∧
      i.width = 1920 ∧ i.height = 1280 := by
  have h := c2_resize_dimensions
    [(["uploads", "tweets", "shot-1.tmp"], FileData.staged (some ⟨3000, 2000, Mode.RGB, false⟩))]
    ["uploads", "tweets"] "shot-1.tmp" 1920 80 ⟨3000, 2000, Mode.RGB, false⟩ (by decide)
  obtain ⟨i, hopen, hle, hgt⟩ := h.1
  obtain ⟨hw, hh, hrest⟩ := hgt (by decide)
  exact ⟨i, hopen, by rw [hw]; decide, by rw [hh]; decide⟩

/-- C9: an RGB image whose metadata carries a transparency key is
classified alpha-bearing and written as a PNG, but the conversion guard
accepts RGB, so the stored PNG keeps mode RGB and has no literal alpha
channel. -/
theorem c9_rgb_transparency_png_without_alpha (fs : FS) (dir : Path) (nm : String)
    (L q : Nat) (img : PilImage) (hopen : imageOpen fs (dir ++ [nm]) = some img)
    (hmode : img.mode = Mode.RGB) (htr : img.transparencyInfo = true) :
    (compress_image_inplace fs (dir ++ [nm]) L q).2 = dir ++ [splitextRoot nm ++ ".png"] ∧
    fsGet (compress_image_inplace fs (dir ++ [nm]) L q).1
      (compress_image_inplace fs (dir ++ [nm]) L q).2 =
      some (FileData.png (pngSavedImage img L) true 9) ∧
    (pngSavedImage img L).mode = Mode.RGB ∧
    modeHasAlphaChannel (pngSavedImage img L).mode = false := by
  have hA : hasAlphaB img = true := by
    simp [hasAlphaB, htr]
  obtain ⟨fsN, hrun, hget⟩ := compress_run_alpha fs dir nm L q img hopen hA
  rw [hrun]
  refine ⟨rfl, hget, pngSavedImage_mode_rgb img L hmode, ?_⟩
  rw [pngSavedImage_mode_rgb img L hmode]
  decide

/-- Witness for C9 at a concrete RGB-plus-transparency input: the target
name carries the `.png` extension while the stored mode stays RGB. -/
theorem c9_rgb_transparency_png_without_alpha_witness :
    (compress_image_inplace
      [(["uploads", "discord", "b-1.tmp"], FileData.staged (some ⟨10, 10, Mode.RGB, true⟩))]
      (["uploads", "discord"] ++ ["b-1.tmp"]) 1600 80).2 =
      ["uploads", "discord"] ++ [splitextRoot "b-1.tmp" ++ ".png"] ∧
    (pngSavedImage ⟨10, 10, Mode.RGB, true⟩ 1600).mode = Mode.RGB := by
  have h := c9_rgb_transparency_png_without_alpha
    [(["uploads", "discord", "b-1.tmp"], FileData.staged (some ⟨10, 10, Mode.RGB, true⟩))]
    ["uploads", "discord"] "b-1.tmp" 1600 80 ⟨10, 10, Mode.RGB, true⟩
    (by decide) rfl rfl
  exact ⟨h.1, h.2.2.1⟩

/-- C10: a 4000 by 1 input with limit 1600 makes the resize step compute
the target dimensions 1600 by 0, and the pipeline carries the zero-height
image through to the stored output with no guard against it. -/
theorem c10_zero_dimension_resize :
    (resizedImage ⟨4000, 1, Mode.RGB, false⟩ 1600).width = 1600 ∧
    (resizedImage ⟨4000, 1, Mode.RGB, false⟩ 1600).height = 0 ∧
    imageOpen (compress_image_inplace
        [(["uploads", "tweets", "wide-1.tmp"], FileData.staged (some ⟨4000, 1, Mode.RGB, false⟩))]
        ["uploads", "tweets", "wide-1.tmp"] 1600 80).1
      (compress_image_inplace
        [(["uploads", "tweets", "wide-1.tmp"], FileData.staged (some ⟨4000, 1, Mode.RGB, false⟩))]
        ["uploads", "tweets", "wide-1.tmp"] 1600 80).2 = some ⟨1600, 0, Mode.RGB, false⟩ := by
  refine ⟨by decide, by decide, by decide⟩


theorem dropWhile_head_false {α : Type} {p : α → Bool} {l : List α} {x : α} {xs : List α}
    (h : l.dropWhile p = x :: xs) : p x = false := by
  induction l with
  | nil => simp at h
  | cons a l ih =>
    rw [List.dropWhile_cons] at h
    split at h
    · exact ih h
    · next hpa =>
      cases h
      exact Bool.eq_false_iff.mpr hpa

theorem takeWhile_append_all {α : Type} {p : α → Bool} (a : List α) (c : α) (b : List α)
    (ha : ∀ x ∈ a, p x = true) (hc : p c = false) :
    (a ++ c :: b).takeWhile p = a := by
  induction a with
  | nil => simp [List.takeWhile_cons, hc]
  | cons x xs ih =>
    rw [List.cons_append, List.takeWhile_cons, ha x (List.mem_cons_self x xs)]
    rw [ih fun y hy => ha y (List.mem_cons_of_mem x hy)]
    simp

theorem mem_of_mem_takeWhile {α : Type} {p : α → Bool} {l : List α} {x : α}
    (h : x ∈ l.takeWhile p) : p x = true := by
  have hall := List.all_takeWhile (p := p) (l := l)
  exact (List.all_eq_true.mp hall) x h

/-- Character data of a stem, a dot, and an extension, flattened. -/
theorem dot_append_data (a b : String) : (a ++ "." ++ b).data = a.data ++ '.' :: b.data := by
  rw [data_append, data_append, List.append_assoc]
  rfl

/-- The extension side of the gate holds exactly when the filename splits
as a stem, a dot, and a dot-free final extension whose lowercase form is
in the allow-set. -/
theorem ext_ok_iff (filename : String) :
    (filename.data.contains '.' &&
      ALLOWED_EXTENSIONS.contains (extAfterLastDot filename).toLower) = true ↔
      ∃ stem ext, filename = stem ++ "." ++ ext ∧ '.' ∉ ext.data ∧
        ext.toLower ∈ ALLOWED_EXTENSIONS := by
  rw [Bool.and_eq_true]
  constructor
  · rintro ⟨hdot, hmem⟩
    have hdotmem : '.' ∈ filename.data := by
      rw [List.contains_iff_exists_mem_beq] at hdot
      obtain ⟨d, hd, hbeq⟩ := hdot
      rwa [beq_iff_eq.mp hbeq]
    have hsplit := List.takeWhile_append_dropWhile
      (p := fun c => c != '.') (l := filename.data.reverse)
    rcases hdc : filename.data.reverse.dropWhile (fun c => c != '.') with _ | ⟨x, xs⟩
    · rw [hdc, List.append_nil] at hsplit
      have hm : ('.' : Char) ∈ filename.data.reverse := List.mem_reverse.mpr hdotmem
      rw [← hsplit] at hm
      have := mem_of_mem_takeWhile hm
      simp at this
    · have hx : x = '.' := by
        have := dropWhile_head_false hdc
        simpa using this
      subst hx
      rw [hdc] at hsplit
      have h2 := congrArg List.reverse hsplit
      rw [List.reverse_reverse] at h2
      have hdataeq : filename.data = xs.reverse ++ '.' ::
          (filename.data.reverse.takeWhile (fun c => c != '.')).reverse := by
        conv_lhs => rw [← h2]
        rw [List.reverse_append, List.reverse_cons, List.append_assoc, List.singleton_append]
      refine ⟨⟨xs.reverse⟩, extAfterLastDot filename, ?_, ?_, ?_⟩
      · apply string_ext
        rw [dot_append_data]
        exact hdataeq
      · intro hc
        have := mem_of_mem_takeWhile (List.mem_reverse.mp hc)
        simp at this
      · rw [List.contains_iff_exists_mem_beq] at hmem
        obtain ⟨d, hd, hbeq⟩ := hmem
        rwa [beq_iff_eq.mp hbeq]
  · rintro ⟨stem, ext, hfe, hnd, hmem⟩
    have hdata : filename.data = stem.data ++ '.' :: ext.data := by
      rw [hfe, dot_append_data]
    constructor
    · rw [List.contains_iff_exists_mem_beq]
      refine ⟨'.', ?_, by simp⟩
      rw [hdata]
      exact List.mem_append_right _ (List.mem_cons_self _ _)
    · have hext : extAfterLastDot filename = ext := by
        apply string_ext
        show (filename.data.reverse.takeWhile (fun c => c != '.')).reverse = ext.data
        rw [hdata, List.reverse_append, List.reverse_cons, List.append_assoc,
          List.singleton_append]
        rw [takeWhile_append_all ext.data.reverse '.' stem.data.reverse
          (fun y hy => by
            have hym : y ∈ ext.data := List.mem_reverse.mp hy
            have hyne : y ≠ '.' := fun he => hnd (he ▸ hym)
            simpa using hyne)
          (by decide)]
        exact List.reverse_reverse _
      rw [hext, List.contains_iff_exists_mem_beq]
      exact ⟨ext.toLower, hmem, by simp⟩

/-- C5: the gate accepts exactly when the filename carries a dot-separated
final extension in the fixed allow-set (case-insensitive) or the MIME type
starts with the image prefix; either condition alone suffices and the
check is a pure boolean. -/
theorem c5_format_gate (filename mimetype : String) :
    allowed_file filename mimetype = true ↔
      ((∃ stem ext, filename = stem ++ "." ++ ext ∧ '.' ∉ ext.data ∧
          ext.toLower ∈ ALLOWED_EXTENSIONS) ∨
        mimetype.startsWith "image/" = true) := by
  unfold allowed_file
  have hmime : (if mimetype = "" then false else mimetype.startsWith "image/") =
      mimetype.startsWith "image/" := by
    split
    · next he =>
      rw [he]
      rfl
    · rfl
  rw [hmime, Bool.or_eq_true, ext_ok_iff]


theorem splitextCore_append (l e : List Char) (he : ∀ c ∈ e, c ≠ '.')
    (hl : ∃ c ∈ l, c ≠ '.') :
    splitextCore (l ++ '.' :: e) = (l, '.' :: e) := by
  obtain ⟨c0, hc0, hc0ne⟩ := hl
  have htake : (l ++ '.' :: e).reverse.takeWhile (fun c => c != '.') = e.reverse := by
    rw [List.reverse_append, List.reverse_cons, List.append_assoc, List.singleton_append]
    exact takeWhile_append_all e.reverse '.' l.reverse
      (fun y hy => by simpa using he y (List.mem_reverse.mp hy)) (by decide)
  have hrev : e.reverse.length = e.length := List.length_reverse e
  have hlen : (l ++ '.' :: e).length = l.length + (e.length + 1) := by simp
  have hc1 : ¬ (e.reverse.length = (l ++ '.' :: e).length) := by omega
  have hidx : (l ++ '.' :: e).length - e.reverse.length - 1 = l.length := by omega
  have hall : ¬ ((l.all (fun c => c == '.')) = true) := by
    intro hall
    exact hc0ne (by simpa using (List.all_eq_true.mp hall) c0 hc0)
  simp only [splitextCore, htake]
  rw [if_neg hc1, hidx, List.take_left, if_neg hall, List.reverse_reverse]

theorem splitextRoot_append_tmp (b : String) (hb : ∃ c ∈ b.data, c ≠ '.') :
    splitextRoot (b ++ ".tmp") = b := by
  apply string_ext
  show (splitextCore (b ++ ".tmp").data).1 = b.data
  have hdata : (b ++ ".tmp").data = b.data ++ '.' :: ['t', 'm', 'p'] := by
    rw [data_append]
  rw [hdata, splitextCore_append b.data ['t', 'm', 'p'] (by decide) hb]

theorem savedStem_has_dash (fn : String) (now : DateTime) (tok : String) :
    ∃ c ∈ (savedStem fn now tok).data, c ≠ '.' := by
  have hdash : ('-' : Char) ∈ ("-" : String).data := by decide
  refine ⟨'-', ?_, by decide⟩
  unfold savedStem
  rw [data_append, data_append]
  exact List.mem_append_left _ (List.mem_append_right _ hdash)

theorem savedStem_no_bs (fn : String) (now : DateTime) (tok : String)
    (htok : '\\' ∉ tok.data) : '\\' ∉ (savedStem fn now tok).data := by
  intro h
  unfold savedStem at h
  rw [data_append, data_append, data_append, data_append] at h
  rcases List.mem_append.mp h with h | h
  · rcases List.mem_append.mp h with h | h
    · unfold savedBase at h
      by_cases hc : splitextRoot (secure_filename (if fn = "" then "image" else fn)) = ""
      · rw [if_pos hc] at h
        exact absurd h (by decide)
      · rw [if_neg hc] at h
        exact secure_filename_no_bs _ (mem_of_mem_splitextRoot h)
    · exact absurd h (by decide)
  · rcases List.mem_append.mp h with h | h
    · rcases List.mem_append.mp h with h | h
      · exact stamp_no_bs now h
      · exact absurd h (by decide)
    · exact htok h

theorem rel_no_bs (subdir nm : String) (hsub : '\\' ∉ subdir.data)
    (hnm : '\\' ∉ nm.data) : '\\' ∉ (subdir ++ "/" ++ nm).data := by
  intro h
  rw [data_append, data_append] at h
  rcases List.mem_append.mp h with h | h
  · rcases List.mem_append.mp h with h | h
    · exact hsub h
    · exact absurd h (by decide)
  · exact hnm h

theorem dropCommon_prefix_nil (c a : Path) : dropCommon (c ++ a) c = (a, []) := by
  induction c with
  | nil => cases a <;> rfl
  | cons x c ih => simp [dropCommon, ih]

theorem relpath_out (cwd : Path) (root sub nm : String) :
    relpath (abspath cwd [root, sub, nm]) (abspath cwd [root]) = [sub, nm] := by
  unfold abspath relpath
  rw [show cwd ++ [root, sub, nm] = (cwd ++ [root]) ++ [sub, nm] by simp]
  rw [dropCommon_prefix_nil]
  rfl

theorem joinPosix_pair (a b : String) : joinPosix [a, b] = a ++ "/" ++ b := rfl

theorem save_image_run (fs : FS) (cwd : Path) (root : String) (L q : Nat) (now : DateTime)
    (token : String) (f : FileStorage) (subdir : String) (hname : strip f.filename ≠ "") :
    save_image fs cwd root L q now token (some f) subdir =
      ((compress_image_inplace
          (fsWrite fs [root, subdir, savedStem f.filename now token ++ ".tmp"]
            (FileData.staged f.decoded))
          [root, subdir, savedStem f.filename now token ++ ".tmp"] L q).1,
        some (replaceBS (joinPosix (relpath
          (abspath cwd (compress_image_inplace
            (fsWrite fs [root, subdir, savedStem f.filename now token ++ ".tmp"]
              (FileData.staged f.decoded))
            [root, subdir, savedStem f.filename now token ++ ".tmp"] L q).2)
          (abspath cwd [root]))))) := by
  simp only [save_image]
  rw [if_neg hname]
  rfl


theorem append_no_bs (a b : String) (ha : '\\' ∉ a.data) (hb : '\\' ∉ b.data) :
    '\\' ∉ (a ++ b).data := by
  intro h
  rw [data_append] at h
  rcases List.mem_append.mp h with h | h
  · exact ha h
  · exact hb h

/-- C3: when the staged bytes do not decode, `save_image` raises nothing,
adds only the staged `.tmp` file to storage, and hands the caller the
staged relative path (whose name still ends in `.tmp`) as a degenerate
success. -/
theorem c3_decode_failure_passthrough (fs : FS) (cwd : Path) (root : String) (L q : Nat)
    (now : DateTime) (token : String) (f : FileStorage) (subdir : String)
    (hname : strip f.filename ≠ "") (hdec : f.decoded = none)
    (hsub : '\\' ∉ subdir.data) (htok : '\\' ∉ token.data) :
    save_image fs cwd root L q now token (some f) subdir =
      (fsWrite fs [root, subdir, savedStem f.filename now token ++ ".tmp"]
          (FileData.staged none),
        some (subdir ++ "/" ++ (savedStem f.filename now token ++ ".tmp"))) ∧
    fsGet (save_image fs cwd root L q now token (some f) subdir).1
        [root, subdir, savedStem f.filename now token ++ ".tmp"] =
      some (FileData.staged none) := by
  have hopen : imageOpen
      (fsWrite fs [root, subdir, savedStem f.filename now token ++ ".tmp"]
        (FileData.staged none))
      [root, subdir, savedStem f.filename now token ++ ".tmp"] = none := by
    rw [imageOpen_fsWrite_staged]
  have hcomp := compress_image_inplace_of_undecodable _ _ L q hopen
  have hnobs : '\\' ∉ (subdir ++ "/" ++ (savedStem f.filename now token ++ ".tmp")).data :=
    rel_no_bs _ _ hsub
      (append_no_bs _ _ (savedStem_no_bs f.filename now token htok) (by decide))
  have hmain : save_image fs cwd root L q now token (some f) subdir =
      (fsWrite fs [root, subdir, savedStem f.filename now token ++ ".tmp"]
          (FileData.staged none),
        some (subdir ++ "/" ++ (savedStem f.filename now token ++ ".tmp"))) := by
    rw [save_image_run fs cwd root L q now token f subdir hname, hdec, hcomp]
    dsimp only
    rw [relpath_out, joinPosix_pair, replaceBS_eq_self _ hnobs]
  refine ⟨hmain, ?_⟩
  rw [hmain]
  exact fsGet_fsWrite_self _ _ _

/-- Witness for C3 at a concrete undecodable upload: the returned relative
path is the staged name, still carrying the `.tmp` suffix. -/
theorem c3_decode_failure_passthrough_witness :
    (save_image [] ["home"] "uploads" 1600 80 ⟨2025, 1, 1, 12, 0, 0⟩ "deadbeef"
      (some ⟨"evil.jpg", none⟩) "prereg").2 =
      some ("prereg" ++ "/" ++ (savedStem "evil.jpg" ⟨2025, 1, 1, 12, 0, 0⟩ "deadbeef" ++ ".tmp")) := by
  have h := c3_decode_failure_passthrough [] ["home"] "uploads" 1600 80 ⟨2025, 1, 1, 12, 0, 0⟩
    "deadbeef" ⟨"evil.jpg", none⟩ "prereg" (by decide) rfl (by decide) (by decide)
  rw [h.1]

/-- Counterexample to C4 as stated: a decodable gate is not required, and
on an undecodable upload `save_image` returns a non-null path whose
extension is `.tmp`, neither `.jpg` nor `.png`. -/
theorem c4_counterexample :
    (save_image [] ["home"] "uploads" 1600 80 ⟨2025, 1, 1, 12, 0, 0⟩ "deadbeef"
      (some ⟨"evil.jpg", none⟩) "prereg").2 =
      some "prereg/evil-20250101-120000-deadbeef.tmp" ∧
    splitextExt "prereg/evil-20250101-120000-deadbeef.tmp" = ".tmp" ∧
    (".tmp" : String) ≠ ".jpg" ∧ (".tmp" : String) ≠ ".png" := by
  refine ⟨by decide, by decide, by decide, by decide⟩

/-- C4 as amended: whenever the staged upload decodes, the returned
non-null relative path ends in `.png` or `.jpg`, matching the encoded file
written on disk. -/
theorem c4_extension_when_decoded (fs : FS) (cwd : Path) (root : String) (L q : Nat)
    (now : DateTime) (token : String) (f : FileStorage) (subdir : String) (img : PilImage)
    (hname : strip f.filename ≠ "") (hdec : f.decoded = some img)
    (hsub : '\\' ∉ subdir.data) (htok : '\\' ∉ token.data) :
    (hasAlphaB img = true →
      (save_image fs cwd root L q now token (some f) subdir).2 =
        some (subdir ++ "/" ++ (savedStem f.filename now token ++ ".png")) ∧
      fsGet (save_image fs cwd root L q now token (some f) subdir).1
          [root, subdir, savedStem f.filename now token ++ ".png"] =
        some (FileData.png (pngSavedImage img L) true 9)) ∧
    (hasAlphaB img = false →
      (save_image fs cwd root L q now token (some f) subdir).2 =
        some (subdir ++ "/" ++ (savedStem f.filename now token ++ ".jpg")) ∧
      fsGet (save_image fs cwd root L q now token (some f) subdir).1
          [root, subdir, savedStem f.filename now token ++ ".jpg"] =
        some (FileData.jpg (jpgSavedImage img L) q true true)) := by
  have hstem := splitextRoot_append_tmp (savedStem f.filename now token)
    (savedStem_has_dash f.filename now token)
  have hopen : imageOpen
      (fsWrite fs [root, subdir, savedStem f.filename now token ++ ".tmp"]
        (FileData.staged (some img)))
      (([root, subdir] : Path) ++ [savedStem f.filename now token ++ ".tmp"]) = some img :=
    imageOpen_fsWrite_staged fs _ (some img)
  constructor
  · intro hA
    obtain ⟨fsN, hrun, hget⟩ := compress_run_alpha _ [root, subdir]
      (savedStem f.filename now token ++ ".tmp") L q img hopen hA
    rw [hstem] at hrun hget
    have hrun2 : compress_image_inplace
        (fsWrite fs [root, subdir, savedStem f.filename now token ++ ".tmp"]
          (FileData.staged f.decoded))
        [root, subdir, savedStem f.filename now token ++ ".tmp"] L q =
        (fsN, [root, subdir, savedStem f.filename now token ++ ".png"]) := by
      rw [hdec]
      exact hrun
    have hnobs : '\\' ∉ (subdir ++ "/" ++ (savedStem f.filename now token ++ ".png")).data :=
      rel_no_bs _ _ hsub
        (append_no_bs _ _ (savedStem_no_bs f.filename now token htok) (by decide))
    constructor
    · rw [save_image_run fs cwd root L q now token f subdir hname]
      dsimp only
      rw [hrun2]
      dsimp only
      rw [relpath_out, joinPosix_pair, replaceBS_eq_self _ hnobs]
    · rw [save_image_run fs cwd root L q now token f subdir hname]
      dsimp only
      rw [hrun2]
      exact hget
  · intro hA
    obtain ⟨fsN, hrun, hget⟩ := compress_run_jpg _ [root, subdir]
      (savedStem f.filename now token ++ ".tmp") L q img hopen hA
    rw [hstem] at hrun hget
    have hrun2 : compress_image_inplace
        (fsWrite fs [root, subdir, savedStem f.filename now token ++ ".tmp"]
          (FileData.staged f.decoded))
        [root, subdir, savedStem f.filename now token ++ ".tmp"] L q =
        (fsN, [root, subdir, savedStem f.filename now token ++ ".jpg"]) := by
      rw [hdec]
      exact hrun
    have hnobs : '\\' ∉ (subdir ++ "/" ++ (savedStem f.filename now token ++ ".jpg")).data :=
      rel_no_bs _ _ hsub
        (append_no_bs _ _ (savedStem_no_bs f.filename now token htok) (by decide))
    constructor
    · rw [save_image_run fs cwd root L q now token f subdir hname]
      dsimp only
      rw [hrun2]
      dsimp only
      rw [relpath_out, joinPosix_pair, replaceBS_eq_self _ hnobs]
    · rw [save_image_run fs cwd root L q now token f subdir hname]
      dsimp only
      rw [hrun2]
      exact hget

/-- Witness for the amended C4 at a concrete opaque upload: the returned
path ends in `.jpg`. -/
theorem c4_extension_when_decoded_witness :
    (save_image [] ["home"] "uploads" 1920 80 ⟨2025, 1, 1, 12, 0, 0⟩ "deadbeef"
      (some ⟨"shot.png", some ⟨3000, 2000, Mode.RGB, false⟩⟩) "tweets").2 =
      some ("tweets" ++ "/" ++ (savedStem "shot.png" ⟨2025, 1, 1, 12, 0, 0⟩ "deadbeef" ++ ".jpg")) := by
  have h := c4_extension_when_decoded [] ["home"] "uploads" 1920 80 ⟨2025, 1, 1, 12, 0, 0⟩
    "deadbeef" ⟨"shot.png", some ⟨3000, 2000, Mode.RGB, false⟩⟩ "tweets"
    ⟨3000, 2000, Mode.RGB, false⟩ (by decide) rfl (by decide) (by decide)
  exact (h.2 (by decide)).1

/-- C6: with no attached file or an all-whitespace claimed filename,
`save_image` returns the null result and writes nothing. -/
theorem c6_empty_input (fs : FS) (cwd : Path) (root : String) (L q : Nat) (now : DateTime)
    (token : String) (file_storage : Option FileStorage) (subdir : String)
    (h : file_storage = none ∨ ∃ f, file_storage = some f ∧ strip f.filename = "") :
    save_image fs cwd root L q now token file_storage subdir = (fs, none) := by
  rcases h with h | ⟨f, hf, hs⟩
  · rw [h]
    rfl
  · rw [hf]
    simp only [save_image]
    rw [if_pos hs]

/-- Witness for C6 at a concrete whitespace-only filename: the result is
null and the file system is unchanged. -/
theorem c6_empty_input_witness :
    save_image [] ["home"] "uploads" 1600 80 ⟨2025, 1, 1, 12, 0, 0⟩ "deadbeef"
      (some ⟨"   ", some ⟨10, 10, Mode.RGB, false⟩⟩) "prereg" = ([], none) :=
  c6_empty_input [] ["home"] "uploads" 1600 80 ⟨2025, 1, 1, 12, 0, 0⟩ "deadbeef"
    (some ⟨"   ", some ⟨10, 10, Mode.RGB, false⟩⟩) "prereg"
    (Or.inr ⟨⟨"   ", some ⟨10, 10, Mode.RGB, false⟩⟩, rfl, by decide⟩)


/-- Character data of a saved stem: base, dash, timestamp, dash, token. -/
theorem savedStem_data (fn : String) (now : DateTime) (tok : String) :
    (savedStem fn now tok).data =
      (savedBase fn).data ++ '-' :: ((stamp now).data ++ '-' :: tok.data) := by
  unfold savedStem
  have hdash : ("-" : String).data = ['-'] := rfl
  rw [data_append, data_append, data_append, data_append, hdash]
  rw [List.append_assoc, List.singleton_append, List.append_assoc, List.singleton_append]

/-- Two dash-stamped names with equal bases, fifteen-character timestamps
and equal-length suffixes are equal only when timestamp and token agree. -/
theorem stamped_ne (b s1 s2 t1 t2 e1 e2 : List Char)
    (hs1 : s1.length = 15) (hs2 : s2.length = 15) (he : e1.length = e2.length)
    (hne : ¬ (s1 = s2 ∧ t1 = t2)) :
    ¬ (b ++ '-' :: (s1 ++ '-' :: (t1 ++ e1)) = b ++ '-' :: (s2 ++ '-' :: (t2 ++ e2))) := by
  intro h
  have h1 := List.append_cancel_left h
  injection h1 with _ h2
  obtain ⟨hs, h3⟩ := List.append_inj h2 (hs1.trans hs2.symm)
  injection h3 with _ h4
  obtain ⟨ht, _⟩ := List.append_inj' h4 he
  exact hne ⟨hs, ht⟩

/-- Two produced relative paths with the same claimed filename differ
whenever the timestamp-token pairs differ. -/
theorem savedName_ne (fn sub : String) (now1 now2 : DateTime) (tok1 tok2 e1 e2 : String)
    (he1 : e1 = ".tmp" ∨ e1 = ".png" ∨ e1 = ".jpg")
    (he2 : e2 = ".tmp" ∨ e2 = ".png" ∨ e2 = ".jpg")
    (hpair : ¬ (stamp now1 = stamp now2 ∧ tok1 = tok2)) :
    sub ++ "/" ++ (savedStem fn now1 tok1 ++ e1) ≠ sub ++ "/" ++ (savedStem fn now2 tok2 ++ e2) := by
  intro h
  have hd := congrArg String.data h
  rw [data_append, data_append, data_append, data_append, data_append, data_append] at hd
  have h1 := List.append_cancel_left hd
  rw [savedStem_data, savedStem_data] at h1
  simp only [List.append_assoc, List.cons_append] at h1
  refine stamped_ne (savedBase fn).data (stamp now1).data (stamp now2).data
    tok1.data tok2.data e1.data e2.data (stamp_length now1) (stamp_length now2) ?_ ?_ h1
  · rcases he1 with h1e | h1e | h1e <;> rcases he2 with h2e | h2e | h2e <;>
      rw [h1e, h2e] <;> rfl
  · intro hc
    exact hpair ⟨string_ext hc.1, string_ext hc.2⟩

/-- Shape of the relative path returned by a non-null `save_image` call:
the subdirectory, a slash, and the saved stem with one of the three
possible extensions. -/
theorem save_image_snd_shape (fs : FS) (cwd : Path) (root : String) (L q : Nat)
    (now : DateTime) (token : String) (f : FileStorage) (subdir : String)
    (hname : strip f.filename ≠ "") (hsub : '\\' ∉ subdir.data) (htok : '\\' ∉ token.data) :
    ∃ ext, (ext = ".tmp" ∨ ext = ".png" ∨ ext = ".jpg") ∧
      (save_image fs cwd root L q now token (some f) subdir).2 =
        some (subdir ++ "/" ++ (savedStem f.filename now token ++ ext)) := by
  have hstem := splitextRoot_append_tmp (savedStem f.filename now token)
    (savedStem_has_dash f.filename now token)
  rcases hd : f.decoded with _ | img
  · refine ⟨".tmp", Or.inl rfl, ?_⟩
    have hopen : imageOpen
        (fsWrite fs [root, subdir, savedStem f.filename now token ++ ".tmp"]
          (FileData.staged none))
        [root, subdir, savedStem f.filename now token ++ ".tmp"] = none := by
      rw [imageOpen_fsWrite_staged]
    have hcomp := compress_image_inplace_of_undecodable _ _ L q hopen
    have hnobs : '\\' ∉ (subdir ++ "/" ++ (savedStem f.filename now token ++ ".tmp")).data :=
      rel_no_bs _ _ hsub
        (append_no_bs _ _ (savedStem_no_bs f.filename now token htok) (by decide))
    rw [save_image_run fs cwd root L q now token f subdir hname]
    dsimp only
    rw [hd, hcomp]
    dsimp only
    rw [relpath_out, joinPosix_pair, replaceBS_eq_self _ hnobs]
  · have hopen : imageOpen
        (fsWrite fs [root, subdir, savedStem f.filename now token ++ ".tmp"]
          (FileData.staged (some img)))
        (([root, subdir] : Path) ++ [savedStem f.filename now token ++ ".tmp"]) = some img :=
      imageOpen_fsWrite_staged fs _ (some img)
    cases hA : hasAlphaB img with
    | true =>
      refine ⟨".png", Or.inr (Or.inl rfl), ?_⟩
      obtain ⟨fsN, hrun, hget⟩ := compress_run_alpha _ [root, subdir]
        (savedStem f.filename now token ++ ".tmp") L q img hopen hA
      rw [hstem] at hrun
      have hrun2 : compress_image_inplace
          (fsWrite fs [root, subdir, savedStem f.filename now token ++ ".tmp"]
            (FileData.staged f.decoded))
          [root, subdir, savedStem f.filename now token ++ ".tmp"] L q =
          (fsN, [root, subdir, savedStem f.filename now token ++ ".png"]) := by
        rw [hd]
        exact hrun
      have hnobs : '\\' ∉ (subdir ++ "/" ++ (savedStem f.filename now token ++ ".png")).data :=
        rel_no_bs _ _ hsub
          (append_no_bs _ _ (savedStem_no_bs f.filename now token htok) (by decide))
      rw [save_image_run fs cwd root L q now token f subdir hname]
      dsimp only
      rw [hrun2]
      dsimp only
      rw [relpath_out, joinPosix_pair, replaceBS_eq_self _ hnobs]
    | false =>
      refine ⟨".jpg", Or.inr (Or.inr rfl), ?_⟩
      obtain ⟨fsN, hrun, hget⟩ := compress_run_jpg _ [root, subdir]
        (savedStem f.filename now token ++ ".tmp") L q img hopen hA
      rw [hstem] at hrun
      have hrun2 : compress_image_inplace
          (fsWrite fs [root, subdir, savedStem f.filename now token ++ ".tmp"]
            (FileData.staged f.decoded))
          [root, subdir, savedStem f.filename now token ++ ".tmp"] L q =
          (fsN, [root, subdir, savedStem f.filename now token ++ ".jpg"]) := by
        rw [hd]
        exact hrun
      have hnobs : '\\' ∉ (subdir ++ "/" ++ (savedStem f.filename now token ++ ".jpg")).data :=
        rel_no_bs _ _ hsub
          (append_no_bs _ _ (savedStem_no_bs f.filename now token htok) (by decide))
      rw [save_image_run fs cwd root L q now token f subdir hname]
      dsimp only
      rw [hrun2]
      dsimp only
      rw [relpath_out, joinPosix_pair, replaceBS_eq_self _ hnobs]

/-- C7: two sequential ingests of files with identical claimed filenames
produce distinct non-null relative paths, provided the generated
timestamp-token pairs differ (the uniqueness contract of the generator). -/
theorem c7_distinct_paths (fs : FS) (cwd : Path) (root : String) (L q : Nat)
    (now1 now2 : DateTime) (tok1 tok2 : String) (f1 f2 : FileStorage) (subdir : String)
    (hfn : f1.filename = f2.filename) (hname : strip f1.filename ≠ "")
    (hpair : ¬ (stamp now1 = stamp now2 ∧ tok1 = tok2))
    (hsub : '\\' ∉ subdir.data) (htok1 : '\\' ∉ tok1.data) (htok2 : '\\' ∉ tok2.data) :
    ∃ s1 s2,
      (save_image fs cwd root L q now1 tok1 (some f1) subdir).2 = some s1 ∧
      (save_image (save_image fs cwd root L q now1 tok1 (some f1) subdir).1
          cwd root L q now2 tok2 (some f2) subdir).2 = some s2 ∧
      s1 ≠ s2 := by
  have hname2 : strip f2.filename ≠ "" := by
    rw [← hfn]
    exact hname
  obtain ⟨e1, he1, h1⟩ := save_image_snd_shape fs cwd root L q now1 tok1 f1 subdir
    hname hsub htok1
  obtain ⟨e2, he2, h2⟩ := save_image_snd_shape
    (save_image fs cwd root L q now1 tok1 (some f1) subdir).1 cwd root L q now2 tok2 f2 subdir
    hname2 hsub htok2
  rw [← hfn] at h2
  exact ⟨_, _, h1, h2, savedName_ne f1.filename subdir now1 now2 tok1 tok2 e1 e2 he1 he2 hpair⟩

/-- Witness for C7 at two concrete ingests of the same filename in the
same second with distinct tokens: the two returned paths differ. -/
theorem c7_distinct_paths_witness :
    ∃ s1 s2,
      (save_image [] ["home"] "uploads" 1600 80 ⟨2025, 1, 1, 12, 0, 0⟩ "aaaaaaaa"
        (some ⟨"pic.png", some ⟨10, 10, Mode.RGB, false⟩⟩) "prereg").2 = some s1 ∧
      (save_image (save_image [] ["home"] "uploads" 1600 80 ⟨2025, 1, 1, 12, 0, 0⟩ "aaaaaaaa"
          (some ⟨"pic.png", some ⟨10, 10, Mode.RGB, false⟩⟩) "prereg").1
        ["home"] "uploads" 1600 80 ⟨2025, 1, 1, 12, 0, 0⟩ "bbbbbbbb"
        (some ⟨"pic.png", some ⟨10, 10, Mode.RGB, false⟩⟩) "prereg").2 = some s2 ∧
      s1 ≠ s2 :=
  c7_distinct_paths [] ["home"] "uploads" 1600 80 ⟨2025, 1, 1, 12, 0, 0⟩ ⟨2025, 1, 1, 12, 0, 0⟩
    "aaaaaaaa" "bbbbbbbb" ⟨"pic.png", some ⟨10, 10, Mode.RGB, false⟩⟩
    ⟨"pic.png", some ⟨10, 10, Mode.RGB, false⟩⟩ "prereg" rfl (by decide) (by decide)
    (by decide) (by decide) (by decide)

/-- C8: every non-null result of `save_image` is exactly the output
absolute path made relative to the absolute storage root, rendered with
the forward-slash separator and free of backslashes. -/
theorem c8_relative_path (fs : FS) (cwd : Path) (root : String) (L q : Nat)
    (now : DateTime) (token : String) (f : FileStorage) (subdir : String)
    (hname : strip f.filename ≠ "") (hsub : '\\' ∉ subdir.data) (htok : '\\' ∉ token.data) :
    ∃ nm,
      (save_image fs cwd root L q now token (some f) subdir).2 =
        some (replaceBS (joinPosix (relpath (abspath cwd [root, subdir, nm])
          (abspath cwd [root])))) ∧
      (save_image fs cwd root L q now token (some f) subdir).2 =
        some (subdir ++ "/" ++ nm) ∧
      '\\' ∉ (subdir ++ "/" ++ nm).data := by
  obtain ⟨ext, hext, hsnd⟩ := save_image_snd_shape fs cwd root L q now token f subdir
    hname hsub htok
  have hextbs : '\\' ∉ ext.data := by
    rcases hext with h | h | h <;> rw [h] <;> decide
  have hnobs : '\\' ∉ (subdir ++ "/" ++ (savedStem f.filename now token ++ ext)).data :=
    rel_no_bs _ _ hsub
      (append_no_bs _ _ (savedStem_no_bs f.filename now token htok) hextbs)
  refine ⟨savedStem f.filename now token ++ ext, ?_, hsnd, hnobs⟩
  rw [relpath_out, joinPosix_pair, replaceBS_eq_self _ hnobs]
  exact hsnd

/-- Witness for C8 at a concrete ingest: the returned path is the
subdirectory, a slash, and the stored name, with no backslash. -/
theorem c8_relative_path_witness :
    ∃ nm,
      (save_image [] ["home"] "uploads" 1600 80 ⟨2025, 1, 1, 12, 0, 0⟩ "deadbeef"
        (some ⟨"pic.png", some ⟨10, 10, Mode.RGB, false⟩⟩) "discord").2 =
        some ("discord" ++ "/" ++ nm) ∧
      '\\' ∉ ("discord" ++ "/" ++ nm).data := by
  obtain ⟨nm, _, h2, h3⟩ := c8_relative_path [] ["home"] "uploads" 1600 80
    ⟨2025, 1, 1, 12, 0, 0⟩ "deadbeef" ⟨"pic.png", some ⟨10, 10, Mode.RGB, false⟩⟩ "discord"
    (by decide) (by decide) (by decide)
  exact ⟨nm, h2, h3⟩

end App
